import Mathlib

/-!
Verification development for the two evolutionary solvers contributed by this
repository: the NSPSO particle-swarm optimizer (src/src/algorithms/nspso.cpp)
and the extended ant-colony optimizer gi_aco_mo
(src/tudatBundle/pagmo2/include/pagmo/algorithms/giACOmo.hpp).

Doubles are embedded as rationals (ℚ); fitness matrices and decision vectors
as lists of rationals.  Out-of-range accesses through std::vector's unchecked
operator are modelled by Option-valued computations (none = the access is out
of range, i.e. undefined behaviour in the source).  Framework collaborators
that live outside src/ (fast non-dominated sorting, uniform sampling,
std::sort, the random engine) are modelled from the spec and are marked as
such in their doc comments.
-/

namespace PagmoCore

/-! ## NSPSO shared numerical kernels (src/src/algorithms/nspso.cpp, lines 496-571) -/

/-- Embedding of nspso::minfit (nspso.cpp 496-514): starting from
fit[i][0] - fit[j][0], fold over every coordinate f of row i keeping the
smaller difference fit[i][f] - fit[j][f]. -/
def minfit (i j : ℕ) (fit : List (List ℚ)) : ℚ :=
  let fi := fit.getD i []
  let fj := fit.getD j []
  (List.range fi.length).foldl
    (fun m k => if fi.getD k 0 - fj.getD k 0 < m then fi.getD k 0 - fj.getD k 0 else m)
    (fi.getD 0 0 - fj.getD 0 0)

/-- Embedding of nspso::compute_maxmin (nspso.cpp 516-539): for each row i the
score starts at minfit(i, (i+1) mod np) and is raised to minfit(i, j) for every
j ≠ i whenever that is larger. -/
def compute_maxmin (fit : List (List ℚ)) : List ℚ :=
  let np := fit.length
  (List.range np).map (fun i =>
    (List.range np).foldl
      (fun m j => if i ≠ j then (if minfit i j fit > m then minfit i j fit else m) else m)
      (minfit i ((i + 1) % np) fit))

/-- Pareto dominance of fitness rows (spec glossary): a dominates b iff a is
componentwise ≤ b with at least one strict inequality. -/
def dominatesB (a b : List ℚ) : Bool :=
  (List.zipWith (fun x y => decide (x ≤ y)) a b).all id
    && (List.zipWith (fun x y => decide (x < y)) a b).any id

/-- Row i of F is non-dominated within F: no other row dominates it. -/
def nonDominatedIn (F : List (List ℚ)) (i : ℕ) : Bool :=
  !(List.range F.length).any (fun j => j != i && dominatesB (F.getD j []) (F.getD i []))

/-! ## Framework collaborators used by nspso::evolve -/

/-- Modelled from the spec: the framework utility fast_non_dominated_sorting
(an external collaborator, not under src/).  Returns the successive
non-dominated fronts of a fitness matrix as index lists, front 0 first.  The
fuel argument bounds the recursion by the number of rows. -/
def fndsAux (F : List (List ℚ)) : ℕ → List ℕ → List (List ℕ)
  | 0, _ => []
  | fuel + 1, rem =>
    if rem.isEmpty then []
    else
      let f0 := rem.filter (fun i => !rem.any (fun j => dominatesB (F.getD j []) (F.getD i [])))
      if f0.isEmpty then [rem]
      else f0 :: fndsAux F fuel (rem.filter (fun i => !f0.contains i))

/-- Modelled from the spec: fast_non_dominated_sorting(F), first component
(the list of fronts). -/
def fnds (F : List (List ℚ)) : List (List ℕ) :=
  fndsAux F F.length (List.range F.length)

/-- Modelled from the spec: detail::less_than_f, the NaN-safe float
comparator used for all sort keys; on ℚ there is no NaN so it is <. -/
def less_than_f (a b : ℚ) : Bool := a < b

/-- Modelled from the spec: std::sort of an index list by a rational key
through the less_than_f comparator, realised as insertion sort (std::sort
produces some ascending order; ties are in unspecified order). -/
def sortIdxBy (key : ℕ → ℚ) : List ℕ → List ℕ
  | [] => []
  | i :: t =>
    let rec ins (i : ℕ) : List ℕ → List ℕ
      | [] => [i]
      | j :: u => if less_than_f (key i) (key j) then i :: j :: u else j :: ins i u
    ins i (sortIdxBy key t)

/-! ## nspso::evolve, step 3: environmental selection (nspso.cpp 373-436) -/

/-- The front-absorption loop of nspso.cpp 392-411: walk the fronts keeping a
fill counter i; push a whole front while it fits strictly below the remaining
capacity, otherwise shuffle it and take the prefix that fills N. -/
def envSelectGo (N : ℕ) (shuffle : List ℕ → List ℕ) : List (List ℕ) → ℕ → List ℕ
  | [], _ => []
  | f :: fs, i =>
    if i < N then
      if f.length < N - i then f ++ envSelectGo N shuffle fs (i + f.length)
      else (shuffle f).take (N - i)
    else []

/-- nspso.cpp 382-411: best_next_pop_indices starts as N zero entries
(`std::vector<...> best_next_pop_indices(swarm_size, 0)`); slots the loop
never reaches keep their zero. -/
def nspso_env_select (ndf : List (List ℕ)) (N : ℕ) (shuffle : List ℕ → List ℕ) : List ℕ :=
  let l := envSelectGo N shuffle ndf 0
  l ++ List.replicate (N - l.length) 0

/-- Embedding of nspso.cpp 376-426, the whole step-3 survivor selection for
one generation.  fit is the population fitness matrix read at the top of the
generation (line 177), next_pop_fit the 2N best_f matrix of next_pop_list
(lines 376-380).  In the non-maxmin branch the source computes
fast_non_dominated_sorting(next_pop_fit) into fnds_res_next (line 386) but
then reads the fronts from std::get<0>(fnds_res), the sorting of fit computed
at line 178; the embedding reproduces that faithfully.  In the maxmin branch
the source sorts sort_list_3, a vector of swarm_size indices (line 142), by
the MaxMin scores of next_pop_fit and keeps all swarm_size of them. -/
def nspso_select_step (mech : String) (fit next_pop_fit : List (List ℚ)) (N : ℕ)
    (shuffle : List ℕ → List ℕ) : List ℕ :=
  if mech ≠ "max min" then
    let _fnds_res_next := fnds next_pop_fit
    let ndf_next := fnds fit
    nspso_env_select ndf_next N shuffle
  else
    let maxmin := compute_maxmin next_pop_fit
    (sortIdxBy (fun idx => maxmin.getD idx 0) (List.range N)).take N

/-- What the spec describes for the non-maxmin environmental selection: the
same front-absorption loop, but over the fronts of the combined 2N fitness
matrix. -/
def nspso_select_spec (next_pop_fit : List (List ℚ)) (N : ℕ)
    (shuffle : List ℕ → List ℕ) : List ℕ :=
  nspso_env_select (fnds next_pop_fit) N shuffle

/-! ## nspso::evolve, step 2: velocity and position update (nspso.cpp 334-361) -/

/-- Embedding of the per-coordinate move of nspso.cpp 334-361: compute the
new velocity, clamp it to [minv, maxv], advance the position by chi times the
clamped velocity, and on hitting a position bound saturate the position and
zero the velocity.  Returns (new position, new velocity). -/
def nspso_move_coord (w c1 c2 chi r1 r2 lb ub minv maxv curx bestx leadx curv : ℚ) : ℚ × ℚ :=
  let v0 := w * curv + c1 * r1 * (bestx - curx) + c2 * r2 * (leadx - curx)
  let v1 := if v0 > maxv then maxv else if v0 < minv then minv else v0
  let x0 := curx + chi * v1
  if x0 > ub then (ub, 0) else if x0 < lb then (lb, 0) else (x0, v1)

/-! ## Random engine and uniform sampling (collaborators) -/

/-- Modelled from the spec: the random engine owned by the solver.  The
source's mersenne twister is abstracted as a deterministic state-transition
on ℕ; the only property the claims rely on is that the stream is a function
of the seed. -/
def engNext (e : ℕ) : ℕ := (6364136223846793005 * e + 1442695040888963407) % 2 ^ 64

/-- A draw in [0,1) from the engine state. -/
def engUnit (e : ℕ) : ℚ := ((engNext e % 2 ^ 32 : ℕ) : ℚ) / 2 ^ 32

/-- Modelled from the spec: uniform_real_from_range(a, b, e) (framework
utility): a value in [a, b] together with the advanced engine state. -/
def uniform_real_from_range (a b : ℚ) (e : ℕ) : ℚ × ℕ :=
  (a + (b - a) * engUnit e, engNext e)

/-- nspso.cpp 152-160: sample the initial velocity matrix coordinate-wise
from [minv[j], maxv[j]], threading the engine. -/
def sampleVelocities (N n_x : ℕ) (minv maxv : List ℚ) (e : ℕ) : List (List ℚ) × ℕ :=
  (List.range N).foldl
    (fun st _ =>
      let row := (List.range n_x).foldl
        (fun rst j =>
          let d := uniform_real_from_range (minv.getD j 0) (maxv.getD j 0) rst.2
          (rst.1 ++ [d.1], d.2))
        (([] : List ℚ), st.2)
      (st.1 ++ [row.1], row.2))
    (([] : List (List ℚ)), e)

/-! ## nspso::evolve, step 0: the working buffer (nspso.cpp 162-171) -/

/-- One nspso_individual (include/pagmo/algorithms/nspso.hpp): current
position, velocity and fitness plus personal bests. -/
structure NspsoInd where
  cur_x : List ℚ
  best_x : List ℚ
  cur_v : List ℚ
  cur_f : List ℚ
  best_f : List ℚ
deriving DecidableEq

/-- Bounds-checked model of std::vector's unchecked write through the index
operator: none when the index is not below the current size (out of range,
undefined behaviour in the source). -/
def vecSet {α : Type} (l : List α) (i : ℕ) (a : α) : Option (List α) :=
  if i < l.length then some (l.set i a) else none

/-- Embedding of nspso.cpp 162-171: next_pop_list is declared with no size
(`std::vector<nspso_individual> next_pop_list;`) and the loop writes
next_pop_list[i] for i = 0..swarm_size-1 through the unchecked index
operator.  Each write is modelled by vecSet. -/
def nspso_init_next_pop (xs fs vel : List (List ℚ)) (swarm_size : ℕ) : Option (List NspsoInd) :=
  (List.range swarm_size).foldl
    (fun acc i =>
      acc.bind (fun l =>
        vecSet l i ⟨xs.getD i [], xs.getD i [], vel.getD i [], fs.getD i [], fs.getD i []⟩))
    (some [])

/-- What the spec describes for the buffer initialisation: a buffer of
exactly N entries where entry i mirrors individual i of the population as
both current and personal best, with the cached velocity. -/
def nspso_init_spec (xs fs vel : List (List ℚ)) (swarm_size : ℕ) : List NspsoInd :=
  (List.range swarm_size).map
    (fun i => ⟨xs.getD i [], xs.getD i [], vel.getD i [], fs.getD i [], fs.getD i []⟩)

/-! ## nspso::evolve entry (nspso.cpp 95-171) -/

/-- The configuration stored by the nspso constructor (nspso.cpp 55-59). -/
structure NspsoConfig where
  gen : ℕ
  min_w : ℚ
  max_w : ℚ
  c1 : ℚ
  c2 : ℚ
  chi : ℚ
  v_coeff : ℚ
  leader_selection_range : ℕ
  diversity_mechanism : String
deriving DecidableEq

/-- The mutable solver state: configuration, velocity cache, engine state,
seed and log (fields m_velocity, m_e, m_seed, m_log).  A log line is
(gen, fevals, ideal point) as in nspso.hpp's log_line_type. -/
structure NspsoState where
  cfg : NspsoConfig
  velocity : List (List ℚ)
  e : ℕ
  seed : ℕ
  log : List (ℕ × ℕ × List ℚ)
deriving DecidableEq

/-- A freshly constructed solver: empty velocity cache, engine seeded, empty
log. -/
def nspsoMk (cfg : NspsoConfig) (seed : ℕ) : NspsoState :=
  ⟨cfg, [], seed, seed, []⟩

/-- nspso::set_seed (nspso.cpp 452-456): reseed the engine and store the
seed; the velocity cache is untouched. -/
def nspsoSetSeed (s : ℕ) (st : NspsoState) : NspsoState :=
  { st with e := s, seed := s }

/-- The problem collaborator surface consumed by nspso::evolve. -/
structure NspsoProb where
  nx : ℕ
  nix : ℕ
  lb : List ℚ
  ub : List ℚ
  stochastic : Bool
  nc : ℕ
  nf : ℕ
deriving DecidableEq

/-- Embedding of the nspso::evolve entry (nspso.cpp 95-171) as a
state-passing function over the solver's mutable members (m_velocity, m_e,
m_log): the preamble checks and the gen == 0 early return (both leave the
state untouched, in particular gen == 0 returns before m_log.clear()), then
m_log.clear() (line 136), the velocity band, the conditional velocity-cache
(re)initialisation through the engine, and the construction of
next_pop_list.  The result pairs what evolve returns (or throws) with the
post solver state, whose log field is what get_log() would read.  The
generation loop that would follow - including its verbosity-gated log
appends at lines 181-209 - is abstracted as the continuation rest (applied
to the buffer and the updated state); it is unreachable, since for every
population passing the checks the buffer construction writes
next_pop_list[0] on an empty vector and faults. -/
def nspsoEvolve
    (rest : List NspsoInd → NspsoState →
      Except String (List (List ℚ) × List (List ℚ)) × NspsoState)
    (st : NspsoState) (prob : NspsoProb) (pop : List (List ℚ) × List (List ℚ)) :
    Except String (List (List ℚ) × List (List ℚ)) × NspsoState :=
  let n_x := prob.nx
  let N := pop.1.length
  if prob.nx = 0 then (.error "cannot work on problems without continuous part", st)
  else if prob.stochastic then (.error "the problem appears to be stochastic", st)
  else if prob.nc ≠ 0 then (.error "non linear constraints detected", st)
  else if prob.nf < 2 then (.error "this is a multi-objective algorithm", st)
  else if N = 0 then (.error "does not work on an empty population", st)
  else if st.cfg.gen = 0 then (.ok pop, st)
  else
    let st1 := { st with log := [] }
    let minv := (List.range n_x).map
      (fun i => -((prob.ub.getD i 0 - prob.lb.getD i 0) * st1.cfg.v_coeff))
    let maxv := (List.range n_x).map
      (fun i => (prob.ub.getD i 0 - prob.lb.getD i 0) * st1.cfg.v_coeff)
    let st2 :=
      if st1.velocity.length ≠ N then
        let ve := sampleVelocities N n_x minv maxv st1.e
        { st1 with velocity := ve.1, e := ve.2 }
      else st1
    match nspso_init_next_pop pop.1 pop.2 st2.velocity N with
    | none => (.error "next_pop_list index out of range", st2)
    | some buf => rest buf st2

/-! ## gi_aco_mo: feasibility screen and penalties (giACOmo.hpp 280-324)

A double that may be +infinity is embedded as Option ℚ, none standing for
+infinity (the only non-finite value the ACO code produces). -/

/-- Embedding of the feasibility screen of giACOmo.hpp 297-311: the equality
loop tests fit[i][k] for k = 1..NEC and the inequality loop tests fit[i][k]
for k = 1..NIC (the source starts the inequality indices at 1, not at
1 + NEC), each with early exit once the flag is set. -/
def acoFeasibleCode (f : List ℚ) (nec nic : ℕ) (acc : ℚ) : Bool :=
  let T := (List.range' 1 nec).any (fun i => decide (|f.getD i 0| > acc))
  let T_2 := (List.range' 1 nic).any (fun i => decide (f.getD i 0 ≥ -acc))
  !T && !T_2

/-- The feasibility test as the spec words it: every equality residual
|f[n_obj + k]| ≤ acc for k < n_ec and every inequality residual
f[n_obj + n_ec + k] < -acc for k < n_ic. -/
def acoFeasibleSpec (f : List ℚ) (nobj nec nic : ℕ) (acc : ℚ) : Bool :=
  ((List.range nec).all (fun k => decide (|f.getD (nobj + k) 0| ≤ acc)))
    && ((List.range nic).all (fun k => decide (f.getD (nobj + nec + k) 0 < -acc)))

/-- Embedding of gi_aco_mo::penalty_computation (giACOmo.hpp 571-678).  The
floating-point square root is not exactly representable on ℚ, so it is a
parameter sqrtQ; every theorem that evaluates this definition only reaches
sqrtQ at 0 and constrains it there.  The running sums and running extrema of
the two constraint loops are carried as triples
(sum of residuals, sum of squares, running extremum); the source's
min(|f[j]|, 0) in the inequality sums (which is identically 0) is kept as
written.  L is the source's hard-wired 2 (the L2 residual norm). -/
def penalty_computation (sqrtQ : ℚ → ℚ) (nfunc nec nf : ℕ) (oracle : ℚ) (f : List ℚ) : ℚ :=
  let ec := (List.range' nfunc nec).foldl
    (fun st i =>
      let v := f.getD i 0
      (st.1 + |v|, st.2.1 + |v| ^ 2, if nfunc < i ∧ st.2.2 < v then v else st.2.2))
    ((0 : ℚ), (0 : ℚ), f.getD nfunc 0)
  let ic := (List.range' (nfunc + nec) (nf - (nfunc + nec))).foldl
    (fun st j =>
      let v := f.getD j 0
      (st.1 + min |v| 0, st.2.1 + min |v| 0 ^ 2,
        if nfunc + nec < j ∧ v < st.2.2 then v else st.2.2))
    ((0 : ℚ), (0 : ℚ), f.getD (nfunc + nec) 0)
  let L : ℕ := 2
  let res := if L = 1 then ec.1 - ic.1
    else if L = 2 then sqrtQ (ec.2.1 + ic.2.1)
    else max ec.2.2 ic.2.2
  let fitness := f.getD 0 0
  let diff := |fitness - oracle|
  let alpha : ℚ :=
    if fitness ≤ oracle then 0
    else if oracle < fitness ∧ res < diff / 3 then
      (diff * (6 * sqrtQ 3 - 2) / (6 * sqrtQ 3) - res) / (diff - res)
    else if oracle < fitness ∧ diff / 3 ≤ res ∧ res ≤ diff then
      1 - 1 / (2 * sqrtQ (diff / res))
    else 1 / 2 * sqrtQ (diff / res)
  if oracle < fitness ∧ res < diff / 3 then alpha * diff + (1 - alpha) * res
  else -diff

/-- Embedding of the penalty loop of giACOmo.hpp 280-324 for configurations
with fstop = 0 (the fstop short-circuit at line 290 is then never taken):
penalties is declared as `vector_double penalties(NP)` (NP zero entries) and
the loop then push_backs one further entry per individual, the oracle
penalty for feasible individuals and +infinity (none) otherwise. -/
def acoPenalties (F : List (List ℚ)) (nec nic : ℕ) (acc : ℚ) (pen : List ℚ → ℚ) :
    List (Option ℚ) :=
  (List.range F.length).foldl
    (fun ps i =>
      let f := F.getD i []
      if acoFeasibleCode f nec nic acc then ps ++ [some (pen f)] else ps ++ [none])
    (List.replicate F.length (some 0))

/-- giACOmo.hpp 312-324: the count of individuals that pass the feasibility
screen (feasible_set). -/
def acoFeasibleCount (F : List (List ℚ)) (nec nic : ℕ) (acc : ℚ) : ℕ :=
  (F.filter (fun f => acoFeasibleCode f nec nic acc)).length

/-! ## gi_aco_mo: sorted penalties, sort_list and the first-generation SA
(giACOmo.hpp 326-396) -/

/-- Strict order on doubles-with-infinity: +infinity (none) is greater than
every finite value. -/
def ltInf : Option ℚ → Option ℚ → Bool
  | some a, some b => decide (a < b)
  | some _, none => true
  | none, _ => false

/-- Modelled from the spec: std::sort ascending on the penalties vector
(giACOmo.hpp 335-336), realised as insertion sort. -/
def sortPen : List (Option ℚ) → List (Option ℚ)
  | [] => []
  | a :: t =>
    let rec ins (a : Option ℚ) : List (Option ℚ) → List (Option ℚ)
      | [] => [a]
      | b :: u => if ltInf a b then a :: b :: u else b :: ins a u
    ins a (sortPen t)

/-- Inner candidate scan of giACOmo.hpp 340-369 for one j: walk i over the
penalties with early exit; on the first i whose penalty equals
sorted_penalties[j] and is not +infinity, push i unless j > 0 and i already
occurs somewhere in sort_list (including among its initial zero entries). -/
def slInner (penalties : List (Option ℚ)) (sp_j : Option ℚ) (j : ℕ) (sl : List ℤ) : List ℤ :=
  ((List.range penalties.length).foldl
    (fun (st : List ℤ × Bool) i =>
      if st.2 then st
      else if penalties.getD i none = sp_j ∧ sp_j ≠ none then
        if j = 0 then (st.1 ++ [(i : ℤ)], true)
        else if st.1.any (fun v => decide (v = (i : ℤ))) then st
        else (st.1 ++ [(i : ℤ)], true)
      else st)
    (sl, false)).1

/-- Embedding of giACOmo.hpp 332-369: sort_list is declared as
`std::vector<int> sort_list(penalties.size())` (that many zero entries) and
the double loop then push_backs the positions of the sorted penalties. -/
def buildSortList (penalties sortedP : List (Option ℚ)) : List ℤ :=
  (List.range penalties.length).foldl
    (fun sl j => slInner penalties (sortedP.getD j none) j sl)
    (List.replicate penalties.length 0)

/-- One row of the solution archive: penalty value, decision vector, fitness
vector (the source flattens these into one vector_double row). -/
structure SARow where
  pen : Option ℚ
  x : List ℚ
  f : List ℚ
deriving DecidableEq

/-- The implicit conversion of a double to std::vector's size type when the
source indexes `penalties[sorted_penalties[i]]`: defined only for a finite
non-negative value whose truncation is below the vector size; anything else
is an out-of-range access (undefined behaviour), modelled as none. -/
def doubleToIndex (len : ℕ) : Option ℚ → Option ℕ
  | none => none
  | some q => if 0 ≤ q ∧ q.floor.toNat < len then some q.floor.toNat else none

/-- An int index into a vector of the given length, none when out of range. -/
def intIndex (len : ℕ) (i : ℤ) : Option ℕ :=
  if 0 ≤ i ∧ i.toNat < len then some i.toNat else none

/-- Embedding of the first-generation archive initialisation of
giACOmo.hpp 385-388: row i of SA is filled from penalties[sorted_penalties[i]]
(the sorted penalty VALUE is used as the index into penalties),
X[sort_list[i]] and fit[sort_list[i]].  Every indexed access is
bounds-checked; none means the source faults. -/
def acoInitSA (X F : List (List ℚ)) (penalties sortedP : List (Option ℚ))
    (sortList : List ℤ) (ker : ℕ) : Option (List SARow) :=
  (List.range ker).foldl
    (fun acc i =>
      acc.bind (fun rows =>
        match doubleToIndex penalties.length (sortedP.getD i none),
            intIndex X.length (sortList.getD i 0), intIndex F.length (sortList.getD i 0) with
        | some pidx, some xidx, some fidx =>
          some (rows ++ [⟨penalties.getD pidx none, X.getD xidx [], F.getD fidx []⟩])
        | _, _, _ => none))
    (some [])

/-! ## gi_aco_mo: pheromone weights (giACOmo.hpp 706-718) -/

/-- Embedding of the omega computation in gi_aco_mo::pheromone_computation:
J = [1, 2, ..., ker], sum = Σ J (the source accumulates into an int starting
from 0; every partial sum is integral, so the value is ker(ker+1)/2), and for
the 0-based loop index k = 0..ker-1 the pushed weight is (ker - k + 1)/sum. -/
def acoOmega (ker : ℕ) : List ℚ :=
  let J : List ℚ := (List.range ker).map (fun j => (j : ℚ) + 1)
  let sum := J.foldl (· + ·) 0
  (List.range ker).map (fun k => ((ker : ℚ) - (k : ℚ) + 1) / sum)

/-! ## gi_aco_mo: the stopping counters (giACOmo.hpp 238-275) -/

/-- Embedding of the generation loop of gi_aco_mo::evolve as seen by the two
stopping counters: at the top of every generation the source declares
`double count_impstop = 0; double count_evalstop = 0;` (giACOmo.hpp 246-247),
then tests `impstop != 0 && count_impstop >= impstop` and the evalstop
analogue (lines 269-275), returning the population on success; the rest of
the generation body (which increments the counters through update_SA) is
abstracted as body.  The result is some gen when some generation returned
early through these tests and none when the loop ran to completion.  The
counter state produced by a generation is discarded by the next generation's
re-initialisation, exactly as in the source. -/
def acoCounterRun (impstop evalstop : ℕ) (body : ℕ → ℚ × ℚ → ℚ × ℚ) :
    ℕ → ℕ → Option ℕ
  | 0, _ => none
  | remaining + 1, gen =>
    let count_impstop : ℚ := 0
    let count_evalstop : ℚ := 0
    if impstop ≠ 0 ∧ (impstop : ℚ) ≤ count_impstop then some gen
    else if evalstop ≠ 0 ∧ (evalstop : ℚ) ≤ count_evalstop then some gen
    else
      let _ := body gen (count_impstop, count_evalstop)
      acoCounterRun impstop evalstop body remaining (gen + 1)

/-! ## gi_aco_mo::evolve entry and generation loop (giACOmo.hpp 177-449) -/

/-- The problem collaborator surface consumed by gi_aco_mo::evolve. -/
structure AcoProb where
  nx : ℕ
  nobj : ℕ
  nec : ℕ
  nic : ℕ
  nc : ℕ
  stochastic : Bool
deriving DecidableEq

/-- The configuration stored by the gi_aco_mo constructors. -/
structure AcoConfig where
  gen : ℕ
  acc : ℚ
  fstop : ℚ
  impstop : ℕ
  evalstop : ℕ
  focus : ℚ
  ker : ℕ
  oracle : ℚ
deriving DecidableEq

/-- A population paired with the problem's fevals counter. -/
abbrev AcoPopState := List (List ℚ × List ℚ) × ℕ

/-- The generation loop of gi_aco_mo::evolve (giACOmo.hpp 238-446): when the
problem is multi-objective the branch at lines 250-253 is empty and the
iteration does nothing; otherwise the single-objective body runs, abstracted
as soStep (returning an error, an early successful return flagged true, or
the next state). -/
def acoLoop (soStep : ℕ → AcoPopState → Except String (Bool × AcoPopState)) (nobj : ℕ) :
    ℕ → ℕ → AcoPopState → Except String AcoPopState
  | 0, _, st => .ok st
  | remaining + 1, gen, st =>
    if 1 < nobj then acoLoop soStep nobj remaining (gen + 1) st
    else
      match soStep gen st with
      | .error e => .error e
      | .ok (true, stp) => .ok stp
      | .ok (false, stp) => acoLoop soStep nobj remaining (gen + 1) stp

/-- Embedding of the gi_aco_mo::evolve entry (giACOmo.hpp 177-238, 446-449):
the preamble checks in source order (empty population, stochastic, declared
constraints, gen == 0 early return, ker > population size), then the
generation loop. -/
def acoEvolve (cfg : AcoConfig) (prob : AcoProb) (pop : List (List ℚ × List ℚ))
    (fevals : ℕ) (soStep : ℕ → AcoPopState → Except String (Bool × AcoPopState)) :
    Except String AcoPopState :=
  if pop.length = 0 then .error "cannot work on an empty population"
  else if prob.stochastic then .error "the problem appears to be stochastic"
  else if prob.nc ≠ 0 then .error "non linear constraints detected"
  else if cfg.gen = 0 then .ok (pop, fevals)
  else if pop.length < cfg.ker then .error "solution archive bigger than the population"
  else acoLoop soStep prob.nobj cfg.gen 1 (pop, fevals)

/-- The mutable gi_aco_mo solver state: configuration, engine state, seed
and log (fields m_e, m_seed, m_log).  The log has the same line shape as
NSPSO's (log_line_type at giACOmo.hpp 72). -/
structure AcoSolver where
  cfg : AcoConfig
  e : ℕ
  seed : ℕ
  log : List (ℕ × ℕ × List ℚ)
deriving DecidableEq

/-- gi_aco_mo::set_seed (giACOmo.hpp 454-458): reseed the engine and store
the seed; nothing else of the solver state is touched. -/
def acoSetSeed (s : ℕ) (st : AcoSolver) : AcoSolver :=
  { st with e := s, seed := s }

/-- gi_aco_mo::evolve as a state-passing function over the solver's mutable
members: the preamble checks and the gen == 0 early return leave the state
untouched (gen == 0 returns at giACOmo.hpp 213-215, before m_log.clear() at
line 227); past them the log is cleared and the generation loop runs.  The
single-objective generation body is abstracted as soBody, applied - besides
the generation number and the population state - to the solver's stored
seed, and to nothing else of the solver state: in the source the body's only
source of randomness is the fresh `std::mt19937 generator(m_seed)` that
gi_aco_mo::generate_new_ants constructs from m_seed on every call
(giACOmo.hpp 901).  The loop itself appends nothing to the log (the
"Logs and prints" slot at lines 239-240 holds no code), so the post-state
log of a run that enters the loop is empty. -/
def acoSolverEvolve
    (soBody : ℕ → ℕ → AcoPopState → Except String (Bool × AcoPopState))
    (sol : AcoSolver) (prob : AcoProb) (pop : List (List ℚ × List ℚ)) (fevals : ℕ) :
    Except String AcoPopState × AcoSolver :=
  if pop.length = 0 then (.error "cannot work on an empty population", sol)
  else if prob.stochastic then (.error "the problem appears to be stochastic", sol)
  else if prob.nc ≠ 0 then (.error "non linear constraints detected", sol)
  else if sol.cfg.gen = 0 then (.ok (pop, fevals), sol)
  else if pop.length < sol.cfg.ker then
    (.error "solution archive bigger than the population", sol)
  else
    let sol1 := { sol with log := [] }
    (acoLoop (fun gen => soBody gen sol1.seed) prob.nobj sol1.cfg.gen 1 (pop, fevals), sol1)

/-! ## Helper lemmas on folds of max and min -/

theorem foldl_max_lt {α : Type} [LinearOrder α] (l : List α) (a c : α) :
    List.foldl max a l < c ↔ a < c ∧ ∀ x ∈ l, x < c := by
  induction l generalizing a with
  | nil => simp
  | cons b t ih =>
    simp only [List.foldl_cons, ih, max_lt_iff, List.mem_cons]
    constructor
    · rintro ⟨⟨h1, h2⟩, h3⟩
      exact ⟨h1, fun x hx => hx.elim (fun e => e ▸ h2) (h3 x)⟩
    · rintro ⟨h1, h2⟩
      exact ⟨⟨h1, h2 b (Or.inl rfl)⟩, fun x hx => h2 x (Or.inr hx)⟩

theorem foldl_min_lt {α : Type} [LinearOrder α] (l : List α) (a c : α) :
    List.foldl min a l < c ↔ a < c ∨ ∃ x ∈ l, x < c := by
  induction l generalizing a with
  | nil => simp
  | cons b t ih =>
    simp only [List.foldl_cons, ih, min_lt_iff, List.mem_cons]
    constructor
    · rintro ((h | h) | ⟨x, hx, hxc⟩)
      · exact Or.inl h
      · exact Or.inr ⟨b, Or.inl rfl, h⟩
      · exact Or.inr ⟨x, Or.inr hx, hxc⟩
    · rintro (h | ⟨x, rfl | hx, hxc⟩)
      · exact Or.inl (Or.inl h)
      · exact Or.inl (Or.inr hxc)
      · exact Or.inr ⟨x, hx, hxc⟩

theorem foldl_max_eq_init_or_mem {α : Type} [LinearOrder α] (l : List α) (a : α) :
    List.foldl max a l = a ∨ List.foldl max a l ∈ l := by
  induction l generalizing a with
  | nil => exact Or.inl rfl
  | cons b t ih =>
    rw [List.foldl_cons]
    rcases ih (max a b) with h | h
    · rcases max_choice a b with e | e
      · exact Or.inl (by rw [h, e])
      · exact Or.inr (by rw [h, e]; exact List.mem_cons_self b t)
    · exact Or.inr (List.mem_cons_of_mem b h)

theorem le_foldl_max_init {α : Type} [LinearOrder α] (l : List α) (a : α) :
    a ≤ List.foldl max a l := by
  induction l generalizing a with
  | nil => exact le_refl a
  | cons b t ih => exact le_trans (le_max_left a b) (by rw [List.foldl_cons]; exact ih (max a b))

theorem le_foldl_max_mem {α : Type} [LinearOrder α] (l : List α) (a x : α) (hx : x ∈ l) :
    x ≤ List.foldl max a l := by
  induction l generalizing a with
  | nil => cases hx
  | cons b t ih =>
    rw [List.foldl_cons]
    rcases List.mem_cons.mp hx with rfl | e
    · exact le_trans (le_max_right a x) (le_foldl_max_init t (max a x))
    · exact ih _ e

theorem foldl_min_eq_init_or_mem {α : Type} [LinearOrder α] (l : List α) (a : α) :
    List.foldl min a l = a ∨ List.foldl min a l ∈ l := by
  induction l generalizing a with
  | nil => exact Or.inl rfl
  | cons b t ih =>
    rw [List.foldl_cons]
    rcases ih (min a b) with h | h
    · rcases min_choice a b with e | e
      · exact Or.inl (by rw [h, e])
      · exact Or.inr (by rw [h, e]; exact List.mem_cons_self b t)
    · exact Or.inr (List.mem_cons_of_mem b h)

theorem foldl_min_le_init {α : Type} [LinearOrder α] (l : List α) (a : α) :
    List.foldl min a l ≤ a := by
  induction l generalizing a with
  | nil => exact le_refl a
  | cons b t ih => exact le_trans (by rw [List.foldl_cons]; exact ih (min a b)) (min_le_left a b)

theorem foldl_min_le_mem {α : Type} [LinearOrder α] (l : List α) (a x : α) (hx : x ∈ l) :
    List.foldl min a l ≤ x := by
  induction l generalizing a with
  | nil => cases hx
  | cons b t ih =>
    rw [List.foldl_cons]
    rcases List.mem_cons.mp hx with rfl | e
    · exact le_trans (foldl_min_le_init t (min a x)) (min_le_right a x)
    · exact ih _ e

theorem if_gt_eq_max {α : Type} [LinearOrder α] (m x : α) :
    (if x > m then x else m) = max m x := by
  rcases le_or_lt x m with h | h
  · rw [if_neg (not_lt.mpr h), max_eq_left h]
  · rw [if_pos h, max_eq_right h.le]

theorem if_lt_eq_min {α : Type} [LinearOrder α] (m x : α) :
    (if x < m then x else m) = min m x := by
  rcases le_or_lt m x with h | h
  · rw [if_neg (not_lt.mpr h), min_eq_left h]
  · rw [if_pos h, min_eq_right h.le]

theorem foldl_guard_max {α : Type} [LinearOrder α] (i : ℕ) (g : ℕ → α) (l : List ℕ) (a : α) :
    List.foldl (fun m j => if i ≠ j then (if g j > m then g j else m) else m) a l
      = List.foldl max a ((l.filter (fun j => decide (i ≠ j))).map g) := by
  induction l generalizing a with
  | nil => rfl
  | cons b t ih =>
    by_cases hb : i = b
    · have hfc : (b :: t).filter (fun j => decide (i ≠ j)) = t.filter (fun j => decide (i ≠ j)) := by
        simp [List.filter_cons, hb]
      simp only [List.foldl_cons]
      rw [if_neg (not_not_intro hb), hfc, ih]
    · have hfc : (b :: t).filter (fun j => decide (i ≠ j))
          = b :: t.filter (fun j => decide (i ≠ j)) := by
        simp [List.filter_cons, hb]
      simp only [List.foldl_cons]
      rw [if_pos hb, if_gt_eq_max, hfc, List.map_cons, List.foldl_cons, ih]

/-! ## Facts about minfit and compute_maxmin -/

theorem row_length (fit : List (List ℚ)) (n : ℕ) (hlen : ∀ r ∈ fit, r.length = n)
    (j : ℕ) (hj : j < fit.length) : (fit.getD j []).length = n := by
  rw [List.getD_eq_getElem?_getD, List.getElem?_eq_getElem hj]
  exact hlen _ (List.getElem_mem hj)

theorem minfit_eq (i j : ℕ) (fit : List (List ℚ)) :
    minfit i j fit
      = List.foldl min ((fit.getD i []).getD 0 0 - (fit.getD j []).getD 0 0)
        ((List.range (fit.getD i []).length).map
          (fun k => (fit.getD i []).getD k 0 - (fit.getD j []).getD k 0)) := by
  simp only [minfit]
  rw [List.foldl_map]
  congr 1
  funext m k
  exact if_lt_eq_min m _

theorem compute_maxmin_getD (fit : List (List ℚ)) (i : ℕ) (hi : i < fit.length) :
    (compute_maxmin fit).getD i 0
      = List.foldl max (minfit i ((i + 1) % fit.length) fit)
        (((List.range fit.length).filter (fun j => decide (i ≠ j))).map
          (fun j => minfit i j fit)) := by
  simp only [compute_maxmin]
  rw [List.getD_eq_getElem?_getD, List.getElem?_map, List.getElem?_range hi]
  simp only [Option.map_some', Option.getD_some]
  exact foldl_guard_max i (fun j => minfit i j fit) (List.range fit.length) _

theorem succ_mod_ne (np i : ℕ) (h2 : 2 ≤ np) (hi : i < np) : (i + 1) % np ≠ i := by
  rcases Nat.lt_or_ge (i + 1) np with h | h
  · rw [Nat.mod_eq_of_lt h]; omega
  · have e : i + 1 = np := by omega
    rw [e, Nat.mod_self]; omega

theorem minfit_is_min (fit : List (List ℚ)) (n : ℕ) (hn : 1 ≤ n)
    (hlen : ∀ r ∈ fit, r.length = n) (i j : ℕ) (hi : i < fit.length) :
    (∃ k, k < n ∧ minfit i j fit = (fit.getD i []).getD k 0 - (fit.getD j []).getD k 0)
    ∧ ∀ k, k < n → minfit i j fit ≤ (fit.getD i []).getD k 0 - (fit.getD j []).getD k 0 := by
  have hrow := row_length fit n hlen i hi
  rw [minfit_eq, hrow]
  constructor
  · rcases foldl_min_eq_init_or_mem
        ((List.range n).map (fun k => (fit.getD i []).getD k 0 - (fit.getD j []).getD k 0))
        ((fit.getD i []).getD 0 0 - (fit.getD j []).getD 0 0) with h | h
    · exact ⟨0, hn, h⟩
    · rcases List.mem_map.mp h with ⟨k, hk, e⟩
      exact ⟨k, List.mem_range.mp hk, e.symm⟩
  · intro k hk
    exact foldl_min_le_mem _ _ _ (List.mem_map.mpr ⟨k, List.mem_range.mpr hk, rfl⟩)

theorem minfit_neg_iff (fit : List (List ℚ)) (n : ℕ) (hn : 1 ≤ n)
    (hlen : ∀ r ∈ fit, r.length = n) (i j : ℕ) (hi : i < fit.length) :
    (minfit i j fit < 0 ↔ ∃ k, k < n ∧ (fit.getD i []).getD k 0 < (fit.getD j []).getD k 0) := by
  have hrow := row_length fit n hlen i hi
  rw [minfit_eq, hrow, foldl_min_lt]
  constructor
  · rintro (h | ⟨x, hx, hxc⟩)
    · exact ⟨0, hn, by linarith⟩
    · rcases List.mem_map.mp hx with ⟨k, hk, e⟩
      exact ⟨k, List.mem_range.mp hk, by rw [← e] at hxc; linarith⟩
  · rintro ⟨k, hk, hlt⟩
    exact Or.inr ⟨_, List.mem_map.mpr ⟨k, List.mem_range.mpr hk, rfl⟩, by linarith⟩

/-- C6 (amended): for every fitness matrix with at least two rows of a common
positive length n, nspso::compute_maxmin returns
m[i] = max over j ≠ i of (min over k of F[i][k] - F[j][k]): the score equals
minfit i j for some admissible j and bounds all of them from above, with
minfit i j likewise attaining and bounding the coordinate differences; and
m[i] < 0 holds iff every other row exceeds row i in some coordinate, i.e. iff
no other row is componentwise ≤ row i.  (With duplicate rows a non-dominated
row can have m[i] = 0, so the original biconditional with strict
non-domination holds only in this weak-domination form.) -/
theorem compute_maxmin_correct (fit : List (List ℚ)) (n : ℕ) (hn : 1 ≤ n)
    (h2 : 2 ≤ fit.length) (hlen : ∀ r ∈ fit, r.length = n) (i : ℕ) (hi : i < fit.length) :
    (∃ j, j < fit.length ∧ j ≠ i ∧ (compute_maxmin fit).getD i 0 = minfit i j fit)
    ∧ (∀ j, j < fit.length → j ≠ i → minfit i j fit ≤ (compute_maxmin fit).getD i 0)
    ∧ (∀ j, j < fit.length →
        ((∃ k, k < n ∧ minfit i j fit = (fit.getD i []).getD k 0 - (fit.getD j []).getD k 0)
          ∧ ∀ k, k < n → minfit i j fit ≤ (fit.getD i []).getD k 0 - (fit.getD j []).getD k 0))
    ∧ ((compute_maxmin fit).getD i 0 < 0 ↔
        ∀ j, j < fit.length → j ≠ i →
          ∃ k, k < n ∧ (fit.getD i []).getD k 0 < (fit.getD j []).getD k 0) := by
  have hj0lt : (i + 1) % fit.length < fit.length := Nat.mod_lt _ (by omega)
  have hj0ne : (i + 1) % fit.length ≠ i := succ_mod_ne fit.length i h2 hi
  have hmem : ∀ j, j < fit.length → j ≠ i →
      minfit i j fit ∈ (((List.range fit.length).filter (fun j => decide (i ≠ j))).map
        (fun j => minfit i j fit)) := by
    intro j hj hne
    exact List.mem_map.mpr ⟨j, List.mem_filter.mpr ⟨List.mem_range.mpr hj,
      decide_eq_true (Ne.symm hne)⟩, rfl⟩
  refine ⟨?_, ?_, ?_, ?_⟩
  · rw [compute_maxmin_getD fit i hi]
    rcases foldl_max_eq_init_or_mem
        (((List.range fit.length).filter (fun j => decide (i ≠ j))).map
          (fun j => minfit i j fit))
        (minfit i ((i + 1) % fit.length) fit) with h | h
    · exact ⟨(i + 1) % fit.length, hj0lt, hj0ne, h⟩
    · rcases List.mem_map.mp h with ⟨j, hj, e⟩
      rcases List.mem_filter.mp hj with ⟨hjr, hjne⟩
      exact ⟨j, List.mem_range.mp hjr, Ne.symm (of_decide_eq_true hjne), e.symm⟩
  · intro j hj hne
    rw [compute_maxmin_getD fit i hi]
    exact le_foldl_max_mem _ _ _ (hmem j hj hne)
  · intro j hj
    exact minfit_is_min fit n hn hlen i j hi
  · rw [compute_maxmin_getD fit i hi, foldl_max_lt]
    constructor
    · rintro ⟨hinit, hall⟩ j hj hne
      rw [← minfit_neg_iff fit n hn hlen i j hi]
      exact hall _ (hmem j hj hne)
    · intro hforall
      constructor
      · rw [minfit_neg_iff fit n hn hlen i _ hi]
        exact hforall _ hj0lt hj0ne
      · intro x hx
        rcases List.mem_map.mp hx with ⟨j, hjf, e⟩
        rcases List.mem_filter.mp hjf with ⟨hjr, hjne⟩
        rw [← e, minfit_neg_iff fit n hn hlen i j hi]
        exact hforall j (List.mem_range.mp hjr) (Ne.symm (of_decide_eq_true hjne))

unseal Rat.add Rat.sub Rat.mul Rat.inv Rat.ofScientific in
/-- C6, original claim refuted: on the fitness matrix [[0,0],[0,0]] (two
duplicate rows) row 0 is non-dominated (no other row dominates it with a
strict inequality), yet its MaxMin score is 0, not negative, so
"m[i] < 0 iff i is non-dominated" fails for matrices with duplicate rows. -/
theorem compute_maxmin_biconditional_fails :
    compute_maxmin [[(0 : ℚ), 0], [0, 0]] = [0, 0]
    ∧ nonDominatedIn [[(0 : ℚ), 0], [0, 0]] 0 = true
    ∧ ¬ (compute_maxmin [[(0 : ℚ), 0], [0, 0]]).getD 0 0 < 0 := by decide

/-- Witness for compute_maxmin_correct at the concrete matrix [[0,1],[1,0]]
with n = 2 and i = 0. -/
theorem compute_maxmin_correct_witness :
    (∃ j, j < ([[(0 : ℚ), 1], [1, 0]] : List (List ℚ)).length ∧ j ≠ 0
      ∧ (compute_maxmin [[(0 : ℚ), 1], [1, 0]]).getD 0 0 = minfit 0 j [[(0 : ℚ), 1], [1, 0]])
    ∧ (∀ j, j < ([[(0 : ℚ), 1], [1, 0]] : List (List ℚ)).length → j ≠ 0 →
        minfit 0 j [[(0 : ℚ), 1], [1, 0]] ≤ (compute_maxmin [[(0 : ℚ), 1], [1, 0]]).getD 0 0)
    ∧ (∀ j, j < ([[(0 : ℚ), 1], [1, 0]] : List (List ℚ)).length →
        ((∃ k, k < 2 ∧ minfit 0 j [[(0 : ℚ), 1], [1, 0]]
            = (([[(0 : ℚ), 1], [1, 0]] : List (List ℚ)).getD 0 []).getD k 0
              - (([[(0 : ℚ), 1], [1, 0]] : List (List ℚ)).getD j []).getD k 0)
          ∧ ∀ k, k < 2 → minfit 0 j [[(0 : ℚ), 1], [1, 0]]
            ≤ (([[(0 : ℚ), 1], [1, 0]] : List (List ℚ)).getD 0 []).getD k 0
              - (([[(0 : ℚ), 1], [1, 0]] : List (List ℚ)).getD j []).getD k 0))
    ∧ ((compute_maxmin [[(0 : ℚ), 1], [1, 0]]).getD 0 0 < 0 ↔
        ∀ j, j < ([[(0 : ℚ), 1], [1, 0]] : List (List ℚ)).length → j ≠ 0 →
          ∃ k, k < 2 ∧ (([[(0 : ℚ), 1], [1, 0]] : List (List ℚ)).getD 0 []).getD k 0
            < (([[(0 : ℚ), 1], [1, 0]] : List (List ℚ)).getD j []).getD k 0) :=
  compute_maxmin_correct [[(0 : ℚ), 1], [1, 0]] 2 (by norm_num) (by norm_num)
    (by decide) 0 (by norm_num)

/-! ## C1: environmental selection reads the fronts of the wrong matrix -/

unseal Rat.add Rat.sub Rat.mul Rat.inv Rat.ofScientific in
/-- C1: with the crowding-distance mechanism and swarm size 1, the old
population fitness is [[1,1]] and the combined 2N best-fitness matrix is
[[1,1],[0,0]], whose offspring row [0,0] dominates the old row.  The step-3
selection of nspso::evolve nevertheless selects index 0 (the old particle),
because it walks the fronts of fnds_res - the sorting of the N-row matrix
computed at line 178 - although fnds_res_next for the combined matrix was
just computed; sorting the combined matrix, as the claim states, would
select index 1.  So the survivors are not the fronts-in-order of the
combined fitness matrix. -/
theorem nspso_select_step_reads_old_fronts :
    nspso_select_step "crowding distance" [[(1 : ℚ), 1]] [[(1 : ℚ), 1], [0, 0]] 1 id = [0]
    ∧ nspso_select_spec [[(1 : ℚ), 1], [0, 0]] 1 id = [1]
    ∧ dominatesB [(0 : ℚ), 0] [1, 1] = true := by decide

/-! ## C2: the working buffer is indexed while empty -/

theorem foldl_none_of_absorb {σ β : Type} (g : Option σ → β → Option σ)
    (habs : ∀ b, g none b = none) (l : List β) : List.foldl g none l = none := by
  induction l with
  | nil => rfl
  | cons b t ih => rw [List.foldl_cons, habs]; exact ih

/-- C2: for every population of size at least 1 the construction of
next_pop_list faults: the vector is declared with no size
(nspso.cpp line 163) and the very first write next_pop_list[0] at line 165
indexes an empty vector, so the buffer initialisation is out of range
(undefined behaviour), contradicting the claim that every index used while
building the buffer is within its size. -/
theorem nspso_init_oob (xs fs vel : List (List ℚ)) (n : ℕ) (hn : 1 ≤ n) :
    nspso_init_next_pop xs fs vel n = none := by
  obtain ⟨m, rfl⟩ : ∃ m, n = m + 1 := ⟨n - 1, by omega⟩
  simp only [nspso_init_next_pop, List.range_succ_eq_map, List.foldl_cons, Option.some_bind]
  have h0 : vecSet ([] : List NspsoInd) 0
      ⟨xs.getD 0 [], xs.getD 0 [], vel.getD 0 [], fs.getD 0 [], fs.getD 0 []⟩ = none := by
    simp [vecSet]
  rw [h0]
  exact foldl_none_of_absorb _ (fun b => rfl) _

/-- Witness for nspso_init_oob at a one-particle population. -/
theorem nspso_init_oob_witness :
    1 ≤ 1 ∧ nspso_init_next_pop [[(0 : ℚ)]] [[(0 : ℚ), 0]] [[(0 : ℚ)]] 1 = none :=
  ⟨le_refl 1, nspso_init_oob [[(0 : ℚ)]] [[(0 : ℚ), 0]] [[(0 : ℚ)]] 1 (le_refl 1)⟩

/-! ## C3: the first-generation archive initialisation -/

unseal Rat.add Rat.sub Rat.mul Rat.inv Rat.ofScientific in
/-- C3: a single-objective population of one feasible individual with
decision vector [5], fitness [0, -5] (one inequality residual), acc = 1/2
and oracle = 1.  The penalties vector receives the spurious zero entry of
its sized declaration plus the pushed oracle penalty -1, so it has two
entries for one individual; the first-generation initialisation then reads
penalties[sorted_penalties[0]] = penalties[-1], an out-of-range access
(undefined behaviour), so the solution-archive invariant (ker sorted
feasible rows) is never established. -/
theorem aco_init_SA_faults :
    acoPenalties [[(0 : ℚ), -5]] 0 1 (1 / 2) (penalty_computation (fun _ => 0) 1 0 2 1)
      = [some 0, some (-1)]
    ∧ acoFeasibleCount [[(0 : ℚ), -5]] 0 1 (1 / 2) = 1
    ∧ sortPen [some (0 : ℚ), some (-1)] = [some (-1), some 0]
    ∧ buildSortList [some (0 : ℚ), some (-1)] [some (-1), some 0] = [0, 0, 1]
    ∧ acoInitSA [[(5 : ℚ)]] [[(0 : ℚ), -5]] [some (0 : ℚ), some (-1)]
        [some (-1), some 0] [0, 0, 1] 1 = none := by decide

/-! ## C4: the stopping counters are reset every generation -/

/-- C4: the early-return tests of gi_aco_mo::evolve can never fire, because
count_impstop and count_evalstop are declared (and so reset to 0) inside the
generation loop and the tests compare these fresh zeros against impstop and
evalstop at least 1: for every number of generations, every generation body
and every positive thresholds the loop runs to completion, contradicting the
claim that the counters persist across generations and that impstop = 1
forces an early return after a generation without improvement. -/
theorem aco_counter_stop_never_fires (impstop evalstop : ℕ)
    (body : ℕ → ℚ × ℚ → ℚ × ℚ) (g gen : ℕ) (hi : 1 ≤ impstop) (he : 1 ≤ evalstop) :
    acoCounterRun impstop evalstop body g gen = none := by
  induction g generalizing gen with
  | zero => rfl
  | succ m ih =>
    have hA : ¬(impstop ≠ 0 ∧ (impstop : ℚ) ≤ (0 : ℚ)) := by
      rintro ⟨-, h⟩
      have h1 : (1 : ℚ) ≤ (impstop : ℚ) := by exact_mod_cast hi
      linarith
    have hB : ¬(evalstop ≠ 0 ∧ (evalstop : ℚ) ≤ (0 : ℚ)) := by
      rintro ⟨-, h⟩
      have h1 : (1 : ℚ) ≤ (evalstop : ℚ) := by exact_mod_cast he
      linarith
    show (if impstop ≠ 0 ∧ (impstop : ℚ) ≤ (0 : ℚ) then some gen
      else if evalstop ≠ 0 ∧ (evalstop : ℚ) ≤ (0 : ℚ) then some gen
      else acoCounterRun impstop evalstop body m (gen + 1)) = none
    rw [if_neg hA, if_neg hB]
    exact ih (gen + 1)

/-- Witness for aco_counter_stop_never_fires: impstop = evalstop = 1, three
generations, a body that increments both counters every generation. -/
theorem aco_counter_stop_never_fires_witness :
    1 ≤ 1 ∧ acoCounterRun 1 1 (fun _ c => (c.1 + 1, c.2 + 1)) 3 1 = none :=
  ⟨le_refl 1,
    aco_counter_stop_never_fires 1 1 (fun _ c => (c.1 + 1, c.2 + 1)) 3 1 (le_refl 1) (le_refl 1)⟩

/-! ## C5: the feasibility screen tests the wrong indices -/

unseal Rat.add Rat.sub Rat.mul Rat.inv Rat.ofScientific in
/-- C5: single-objective fitness row [10, 0, -5] with one equality residual
(value 0 at index 1) and one inequality residual (value -5 at index 2),
acc = 1/2.  By the claim the individual is feasible (|0| ≤ 1/2 and
-5 < -1/2), but the code's inequality loop reads index 1 (it starts at 1
instead of 1 + n_ec), finds 0 ≥ -1/2 and classifies the individual as
infeasible, assigning penalty +infinity; moreover the penalties list holds
two entries for this one individual (the spurious zero of the sized
declaration plus the pushed value). -/
theorem aco_feasibility_misindexed :
    acoFeasibleCode [(10 : ℚ), 0, -5] 1 1 (1 / 2) = false
    ∧ acoFeasibleSpec [(10 : ℚ), 0, -5] 1 1 1 (1 / 2) = true
    ∧ acoPenalties [[(10 : ℚ), 0, -5]] 1 1 (1 / 2) (penalty_computation (fun _ => 0) 1 1 3 1)
      = [some 0, none] := by decide

/-! ## C7: the pheromone weights -/

unseal Rat.add Rat.sub Rat.mul Rat.inv Rat.ofScientific in
/-- C7: at ker = 2 the normaliser is S = 3, but the 0-based loop index makes
the pushed weights (ker - k + 1)/S for k = 0, 1, i.e. [3/3, 2/3] = [1, 2/3]:
the claimed sequence ker/S, ..., 1/S = [2/3, 1/3] is shifted by one and the
weights sum to 5/3, not 1. -/
theorem aco_omega_weights_not_normalised :
    acoOmega 2 = [1, 2 / 3]
    ∧ (acoOmega 2).foldl (· + ·) 0 = 5 / 3
    ∧ ¬ (acoOmega 2).foldl (· + ·) 0 = 1 := by decide

/-! ## C8: the velocity band invariant -/

/-- C8: with minv = -(ub - lb) * v_coeff and maxv = (ub - lb) * v_coeff as
set up at nspso.cpp 146-150, (a) the initial velocity sample drawn by
uniform_real_from_range(minv, maxv) lies within the band, and (b) for every
input whatsoever the per-coordinate move of nspso.cpp 334-361 returns a
velocity within the band: the raw update is clamped to [minv, maxv] before
use and a particle saturating a position bound gets velocity 0, which the
band contains since it is symmetric around 0. -/
theorem nspso_velocity_in_band (w c1 c2 chi r1 r2 lb ub curx bestx leadx curv vc : ℚ)
    (e : ℕ) (hb : lb ≤ ub) (hv : 0 ≤ vc) :
    |(uniform_real_from_range (-((ub - lb) * vc)) ((ub - lb) * vc) e).1| ≤ (ub - lb) * vc
    ∧ |(nspso_move_coord w c1 c2 chi r1 r2 lb ub (-((ub - lb) * vc)) ((ub - lb) * vc)
        curx bestx leadx curv).2| ≤ (ub - lb) * vc := by
  have hw : 0 ≤ (ub - lb) * vc := mul_nonneg (by linarith) hv
  have hu0 : 0 ≤ engUnit e := by
    unfold engUnit
    positivity
  have hu1 : engUnit e ≤ 1 := by
    unfold engUnit
    rw [div_le_one (by positivity)]
    have hlt : (engNext e % 2 ^ 32) < 2 ^ 32 := Nat.mod_lt _ (by positivity)
    exact_mod_cast hlt.le
  constructor
  · simp only [uniform_real_from_range]
    rw [abs_le]
    constructor
    · nlinarith [mul_nonneg hw hu0]
    · nlinarith [mul_le_of_le_one_right hw hu1]
  · simp only [nspso_move_coord]
    split_ifs <;> dsimp only <;>
      exact abs_le.mpr ⟨by linarith, by linarith⟩

/-- Witness for nspso_velocity_in_band at concrete bounds [0, 1], v_coeff 1
and a concrete move input. -/
theorem nspso_velocity_in_band_witness :
    (0 : ℚ) ≤ 1
    ∧ |(uniform_real_from_range (-(((1 : ℚ) - 0) * 1)) (((1 : ℚ) - 0) * 1) 7).1|
        ≤ ((1 : ℚ) - 0) * 1
    ∧ |(nspso_move_coord 1 1 1 1 (1 / 2) (1 / 2) 0 1 (-(((1 : ℚ) - 0) * 1)) (((1 : ℚ) - 0) * 1)
        0 1 1 0).2| ≤ ((1 : ℚ) - 0) * 1 :=
  ⟨by norm_num,
    (nspso_velocity_in_band 1 1 1 1 (1 / 2) (1 / 2) 0 1 0 1 1 0 1 7 (by norm_num) (by norm_num)).1,
    (nspso_velocity_in_band 1 1 1 1 (1 / 2) (1 / 2) 0 1 0 1 1 0 1 7 (by norm_num) (by norm_num)).2⟩

/-! ## C9: two-run determinism -/

/-- C9: set_seed(s) followed by identical evolve inputs is deterministic for
both solvers.  The two runs start from two solver states with ARBITRARY
prior engine states and stored seeds - only the configuration, the NSPSO
velocity cache and the prior log (the remaining mutable members evolve
reads) are assumed equal - and set_seed s is applied to each.  The theorem
says both runs return identical results and identical post solver states,
in particular identical logs: it holds because set_seed overwrites the whole
of the engine state (m_e) and the stored seed (m_seed), after which nothing
either evolve reads distinguishes the two states; the gi_aco_mo generation
body receives its randomness only through the stored seed, exactly as
generate_new_ants reseeds a fresh mt19937 from m_seed on every call.
Construction with a given seed is the special case of equal prior states. -/
theorem evolve_deterministic_given_seed (s : ℕ) (st1 st2 : NspsoState)
    (prob : NspsoProb) (pop : List (List ℚ) × List (List ℚ))
    (rest : List NspsoInd → NspsoState →
      Except String (List (List ℚ) × List (List ℚ)) × NspsoState)
    (hcfg : st1.cfg = st2.cfg) (hvel : st1.velocity = st2.velocity)
    (hlog : st1.log = st2.log)
    (a1 a2 : AcoSolver) (aprob : AcoProb) (apop : List (List ℚ × List ℚ)) (fev : ℕ)
    (soBody : ℕ → ℕ → AcoPopState → Except String (Bool × AcoPopState))
    (hacfg : a1.cfg = a2.cfg) (halog : a1.log = a2.log) :
    nspsoEvolve rest (nspsoSetSeed s st1) prob pop
      = nspsoEvolve rest (nspsoSetSeed s st2) prob pop
    ∧ (nspsoEvolve rest (nspsoSetSeed s st1) prob pop).2.log
      = (nspsoEvolve rest (nspsoSetSeed s st2) prob pop).2.log
    ∧ acoSolverEvolve soBody (acoSetSeed s a1) aprob apop fev
      = acoSolverEvolve soBody (acoSetSeed s a2) aprob apop fev
    ∧ (acoSolverEvolve soBody (acoSetSeed s a1) aprob apop fev).2.log
      = (acoSolverEvolve soBody (acoSetSeed s a2) aprob apop fev).2.log := by
  have e1 : nspsoSetSeed s st1 = nspsoSetSeed s st2 := by
    cases st1
    cases st2
    simp_all [nspsoSetSeed]
  have e2 : acoSetSeed s a1 = acoSetSeed s a2 := by
    cases a1
    cases a2
    simp_all [acoSetSeed]
  rw [e1, e2]
  exact ⟨rfl, rfl, rfl, rfl⟩

/-- Witness for evolve_deterministic_given_seed: seed 32, one-particle
populations, and two prior states per solver that genuinely differ in their
engine states and stored seeds (5/5 against 999/7, and 3/3 against 123/4)
while sharing configuration, velocity cache and log. -/
theorem evolve_deterministic_given_seed_witness :
    nspsoEvolve (fun _ st => (.ok ([], []), st))
        (nspsoSetSeed 32 ⟨⟨10, 1 / 100, 1, 1 / 2, 1 / 2, 1 / 2, 1 / 2, 2,
          "crowding distance"⟩, [], 5, 5, []⟩)
        ⟨1, 0, [0], [1], false, 0, 2⟩ ([[(0 : ℚ)]], [[(0 : ℚ), 0]])
      = nspsoEvolve (fun _ st => (.ok ([], []), st))
        (nspsoSetSeed 32 ⟨⟨10, 1 / 100, 1, 1 / 2, 1 / 2, 1 / 2, 1 / 2, 2,
          "crowding distance"⟩, [], 999, 7, []⟩)
        ⟨1, 0, [0], [1], false, 0, 2⟩ ([[(0 : ℚ)]], [[(0 : ℚ), 0]])
    ∧ (nspsoEvolve (fun _ st => (.ok ([], []), st))
        (nspsoSetSeed 32 ⟨⟨10, 1 / 100, 1, 1 / 2, 1 / 2, 1 / 2, 1 / 2, 2,
          "crowding distance"⟩, [], 5, 5, []⟩)
        ⟨1, 0, [0], [1], false, 0, 2⟩ ([[(0 : ℚ)]], [[(0 : ℚ), 0]])).2.log
      = (nspsoEvolve (fun _ st => (.ok ([], []), st))
        (nspsoSetSeed 32 ⟨⟨10, 1 / 100, 1, 1 / 2, 1 / 2, 1 / 2, 1 / 2, 2,
          "crowding distance"⟩, [], 999, 7, []⟩)
        ⟨1, 0, [0], [1], false, 0, 2⟩ ([[(0 : ℚ)]], [[(0 : ℚ), 0]])).2.log
    ∧ acoSolverEvolve (fun _ _ st => .ok (false, st))
        (acoSetSeed 32 ⟨⟨1, 1 / 2, 0, 1, 1, 1 / 2, 1, 1⟩, 3, 3, []⟩)
        ⟨1, 2, 0, 0, 0, false⟩ [([(0 : ℚ)], [(0 : ℚ), 0])] 0
      = acoSolverEvolve (fun _ _ st => .ok (false, st))
        (acoSetSeed 32 ⟨⟨1, 1 / 2, 0, 1, 1, 1 / 2, 1, 1⟩, 123, 4, []⟩)
        ⟨1, 2, 0, 0, 0, false⟩ [([(0 : ℚ)], [(0 : ℚ), 0])] 0
    ∧ (acoSolverEvolve (fun _ _ st => .ok (false, st))
        (acoSetSeed 32 ⟨⟨1, 1 / 2, 0, 1, 1, 1 / 2, 1, 1⟩, 3, 3, []⟩)
        ⟨1, 2, 0, 0, 0, false⟩ [([(0 : ℚ)], [(0 : ℚ), 0])] 0).2.log
      = (acoSolverEvolve (fun _ _ st => .ok (false, st))
        (acoSetSeed 32 ⟨⟨1, 1 / 2, 0, 1, 1, 1 / 2, 1, 1⟩, 123, 4, []⟩)
        ⟨1, 2, 0, 0, 0, false⟩ [([(0 : ℚ)], [(0 : ℚ), 0])] 0).2.log :=
  evolve_deterministic_given_seed 32
    ⟨⟨10, 1 / 100, 1, 1 / 2, 1 / 2, 1 / 2, 1 / 2, 2, "crowding distance"⟩, [], 5, 5, []⟩
    ⟨⟨10, 1 / 100, 1, 1 / 2, 1 / 2, 1 / 2, 1 / 2, 2, "crowding distance"⟩, [], 999, 7, []⟩
    ⟨1, 0, [0], [1], false, 0, 2⟩ ([[(0 : ℚ)]], [[(0 : ℚ), 0]])
    (fun _ st => (.ok ([], []), st)) rfl rfl rfl
    ⟨⟨1, 1 / 2, 0, 1, 1, 1 / 2, 1, 1⟩, 3, 3, []⟩
    ⟨⟨1, 1 / 2, 0, 1, 1, 1 / 2, 1, 1⟩, 123, 4, []⟩
    ⟨1, 2, 0, 0, 0, false⟩ [([(0 : ℚ)], [(0 : ℚ), 0])] 0
    (fun _ _ st => .ok (false, st)) rfl rfl

/-! ## C10: the multi-objective branch of gi_aco_mo::evolve is a no-op -/

/-- C10: for every configuration, problem and single-objective step function,
if the population is non-empty, the problem is not stochastic, declares no
constraints and has more than one objective, gen is positive and
ker ≤ population size, then gi_aco_mo::evolve returns exactly the input
population with an unchanged fevals counter: the multi-objective branch of
every generation is empty, so no individual is replaced and no fitness is
evaluated. -/
theorem aco_evolve_mo_noop (cfg : AcoConfig) (prob : AcoProb)
    (pop : List (List ℚ × List ℚ)) (fevals : ℕ)
    (soStep : ℕ → AcoPopState → Except String (Bool × AcoPopState))
    (hp : pop.length ≠ 0) (hs : prob.stochastic = false) (hc : prob.nc = 0)
    (hg : cfg.gen ≠ 0) (hk : cfg.ker ≤ pop.length) (hm : 1 < prob.nobj) :
    acoEvolve cfg prob pop fevals soStep = .ok (pop, fevals) := by
  have hloop : ∀ n gen st, acoLoop soStep prob.nobj n gen st = .ok st := by
    intro n
    induction n with
    | zero => intro gen st; rfl
    | succ m ih =>
      intro gen st
      show (if 1 < prob.nobj then acoLoop soStep prob.nobj m (gen + 1) st
        else match soStep gen st with
          | .error e => .error e
          | .ok (true, stp) => .ok stp
          | .ok (false, stp) => acoLoop soStep prob.nobj m (gen + 1) stp) = .ok st
      rw [if_pos hm]
      exact ih (gen + 1) st
  unfold acoEvolve
  rw [if_neg hp, if_neg (by simp [hs]), if_neg (by simp [hc]), if_neg hg,
    if_neg (not_lt.mpr hk), hloop]

/-- Witness for aco_evolve_mo_noop at a two-objective problem with a
one-individual population. -/
theorem aco_evolve_mo_noop_witness :
    acoEvolve ⟨3, 1 / 2, 0, 1, 1, 1 / 2, 1, 1⟩ ⟨1, 2, 0, 0, 0, false⟩
        [([(0 : ℚ)], [(0 : ℚ), 0])] 5 (fun _ st => .ok (false, st))
      = .ok ([([(0 : ℚ)], [(0 : ℚ), 0])], 5) :=
  aco_evolve_mo_noop ⟨3, 1 / 2, 0, 1, 1, 1 / 2, 1, 1⟩ ⟨1, 2, 0, 0, 0, false⟩
    [([(0 : ℚ)], [(0 : ℚ), 0])] 5 (fun _ st => .ok (false, st))
    (by decide) rfl rfl (by decide) (by decide) (by decide)

end PagmoCore
